import Mathlib

/-!
Shallow embedding of `NGS-general/SolidDataExtractor/run_qc_pipeline.py`.

The program drives an external batch scheduler through three command-line
tools (`qsub`, `qstat`, `qdel`).  The embedding makes the external world an
explicit environment `Env`: the outputs of the successive `qstat`
invocations (each a function from the issued command line to the stdout
lines), the outputs of the successive `qsub` invocations, and the results of
the successive `os.path.exists` checks on the log file.  Python exceptions
and nontermination are made explicit by the outcome type `Out`; polling
loops take a fuel argument, exhausted fuel (or an exhausted environment)
being the `hang` outcome.
-/

namespace RunQcPipeline

/-- Accumulating worker for `pySplit`: `cur` holds the characters of the
current field in reverse. -/
def pySplitAux (cur : List Char) : List Char → List String
  | [] => if cur.isEmpty then [] else [String.mk cur.reverse]
  | c :: cs =>
    if c.isWhitespace then
      if cur.isEmpty then pySplitAux [] cs
      else String.mk cur.reverse :: pySplitAux [] cs
    else pySplitAux (c :: cur) cs

/-- Python `str.split()` with no argument: split on whitespace runs, dropping
empty fields. -/
def pySplit (s : String) : List String :=
  pySplitAux [] s.toList

/-- Python `str.startswith(pfx)`. -/
def pyStartsWith (s pfx : String) : Bool :=
  List.isPrefixOf pfx.toList s.toList

/-- Python `str.isdigit()` on the tool output: nonempty and all digits. -/
def pyIsdigit (s : String) : Bool :=
  (!s.toList.isEmpty) && s.toList.all Char.isDigit

/-- The external world: the login name returned by `os.getlogin()`, the
outputs of the successive `qstat` runs (as functions of the issued command
line), the stdout of the successive `qsub` runs, and the results of the
successive `os.path.exists` checks on the job log file. -/
structure Env where
  login : String
  qstat : List (List String → List String)
  qsub : List (List String)
  log : List Bool

/-- Consume the next `qstat` invocation from the environment. -/
def Env.popQstat (e : Env) : Option ((List String → List String) × Env) :=
  match e.qstat with
  | [] => none
  | f :: fs => some (f, { e with qstat := fs })

/-- Consume the next `qsub` invocation from the environment. -/
def Env.popQsub (e : Env) : Option (List String × Env) :=
  match e.qsub with
  | [] => none
  | o :: os => some (o, { e with qsub := os })

/-- Consume the next `os.path.exists` check from the environment. -/
def Env.popLog (e : Env) : Option (Bool × Env) :=
  match e.log with
  | [] => none
  | b :: bs => some (b, { e with log := bs })

/-- The Python exceptions the embedded code can raise: `NameError` (use of
an undefined name), `TypeError` (`str + NoneType` concatenation),
`IndexError` (out-of-range `line.split()[2]`). -/
inductive PyErr where
  | nameError
  | typeError
  | indexError
deriving Repr, DecidableEq

/-- Outcome of running a piece of the program: normal completion with the
final state and remaining environment, an uncaught Python exception together
with the state at the moment it was raised, or nontermination within the
modelled budget. -/
inductive Out (σ : Type) where
  | ok (s : σ) (e : Env)
  | exn (err : PyErr) (s : σ) (e : Env)
  | hang

/-- The final state of a normally completed run, if any. -/
def Out.toOk {σ : Type} : Out σ → Option σ
  | .ok s _ => some s
  | _ => none

/-- The observable state: the final state of a normal completion, or the
state at the moment an uncaught exception was raised. -/
def Out.obs {σ : Type} : Out σ → Option σ
  | .ok s _ => some s
  | .exn _ s _ => some s
  | .hang => none

/-- The exception of a run that raised, if any. -/
def Out.toExn {σ : Type} : Out σ → Option PyErr
  | .exn err _ _ => some err
  | _ => none

/-- Command line built by `Qstat.list` (source lines 51-56):
`qstat -u <user>`, defaulting the user to `os.getlogin()`. -/
def Qstat.listCmd (user : Option String) (login : String) : List String :=
  match user with
  | some u => ["qstat", "-u", u]
  | none => ["qstat", "-u", login]

/-- Output parsing of `Qstat.list` (source lines 60-74): keep the first
whitespace-separated token of every line on which it is all digits; an
empty line (IndexError on `line.split()[0]`) is skipped. -/
def qstatParse (lines : List String) : List String :=
  lines.filterMap (fun line =>
    match pySplit line with
    | [] => none
    | tok :: _ => if pyIsdigit tok then some tok else none)

/-- `Qstat.list` (source lines 48-74): run one `qstat` invocation with the
constructed command line and parse the job ids from its output.  `none`
models an exhausted environment. -/
def Qstat.listE (user : Option String) (e : Env) : Option (List String × Env) :=
  match e.popQstat with
  | none => none
  | some (f, e1) => some (qstatParse (f (Qstat.listCmd user e.login)), e1)

/-- `Qstat.njobs` (source lines 76-79): length of the parsed job-id list. -/
def Qstat.njobsE (user : Option String) (e : Env) : Option (Nat × Env) :=
  match Qstat.listE user e with
  | none => none
  | some (ids, e1) => some (ids.length, e1)

/-- `Qstat.hasJob` (source lines 81-84): membership of the job id in
`Qstat.list()` (no user argument).  A Python `None` job id is never a member
of a list of strings. -/
def Qstat.hasJobE (job_id : Option String) (e : Env) : Option (Bool × Env) :=
  match Qstat.listE none e with
  | none => none
  | some (ids, e1) =>
    some (match job_id with
          | none => false
          | some jid => ids.contains jid, e1)

/-- The line prefix `QsubScript` looks for in the `qsub` output. -/
def yourJobPfx : String := "Your job"

/-- Job-id extraction loop of `QsubScript` (source lines 203-206):
`job_id = None`, then for every line starting with the prefix,
`job_id = line.split()[2]` (the last such line wins); a matching line with
fewer than three tokens raises IndexError. -/
def qsubParseAux (acc : Option String) : List String → Except PyErr (Option String)
  | [] => .ok acc
  | line :: rest =>
    if pyStartsWith line yourJobPfx then
      match (pySplit line)[2]? with
      | some tok => qsubParseAux (some tok) rest
      | none => .error .indexError
    else qsubParseAux acc rest

/-- The job id `QsubScript` (source lines 175-209) returns for a given
`qsub` stdout: `None` when no line starts with the prefix. -/
def qsubParse (lines : List String) : Except PyErr (Option String) :=
  qsubParseAux none lines

/-- Command line built by `QdelJob` (source lines 211-218). -/
def QdelJobCmd (job_id : String) : List String :=
  ["qdel", job_id]

/-- The mutable state of a `QsubJob` (source lines 87-111).  The unused
`home_dir` attribute and the stateless `qstat` helper object are omitted. -/
structure QsubJob where
  name : String
  working_dir : Option String
  script : String
  args : List String
  job_id : Option String
  log : Option String
  submitted : Bool
  terminated : Bool
  finished : Bool
deriving Repr, DecidableEq

/-- `QsubJob.__init__` (source lines 91-111). -/
def QsubJob.make (name : String) (dirn : Option String) (script : String)
    (args : List String) : QsubJob :=
  { name := name
    working_dir := dirn
    script := script
    args := args
    job_id := none
    log := none
    submitted := false
    terminated := false
    finished := false }

/-- `QsubJob.isRunning` (source lines 150-158): false without any external
call when never submitted or already finished; otherwise one fresh
`Qstat.hasJob` query, absence from which sets the `finished` flag. -/
def QsubJob.isRunning (j : QsubJob) (e : Env) : Option ((QsubJob × Bool) × Env) :=
  match j.submitted, j.finished with
  | false, _ => some ((j, false), e)
  | true, true => some ((j, false), e)
  | true, false =>
    match Qstat.hasJobE j.job_id e with
    | none => none
    | some (present, e1) =>
      match present with
      | true => some ((j, true), e1)
      | false => some (({ j with finished := true }, false), e1)

/-- The wait loop of `QsubJob.start` (source lines 122-123): poll until
either the queue lists the job id or the log file exists (the existence
check is skipped when the queue already lists the id). -/
def startWait (jid : String) : Nat → Env → Option Env
  | 0, _ => none
  | fuel + 1, e =>
    match Qstat.hasJobE (some jid) e with
    | none => none
    | some (present, e1) =>
      match present with
      | true => some e1
      | false =>
        match e1.popLog with
        | none => none
        | some (ex, e2) =>
          match ex with
          | true => some e2
          | false => startWait jid fuel e2

/-- `QsubJob.start` (source lines 113-125): a no-op when already submitted
or finished; otherwise submit via `QsubScript`, record the id and the
`submitted` flag, derive the log name, and wait for queue visibility.
When `QsubScript` returns `None`, the assignments `self.job_id = None` and
`self.submitted = True` have already happened when
`self.log = self.name+'.o'+self.job_id` raises TypeError. -/
def QsubJob.start (j : QsubJob) (fuel : Nat) (e : Env) : Out QsubJob :=
  match j.submitted || j.finished with
  | true => .ok j e
  | false =>
    match e.popQsub with
    | none => .hang
    | some (out, e1) =>
      match qsubParse out with
      | .error err => .exn err j e1
      | .ok none => .exn .typeError { j with job_id := none, submitted := true } e1
      | .ok (some jid) =>
        match startWait jid fuel e1 with
        | none => .hang
        | some e2 =>
          .ok { j with
                job_id := some jid
                submitted := true
                log := some (j.name ++ ".o" ++ jid) } e2

/-- `QsubJob.terminate` (source lines 127-132): when `isRunning()` is false
the body evaluates the undefined name `Qdeljob` (the defined function is
`QdelJob`), raising NameError before any `qdel` is issued and before
`self.terminated = True`; when `isRunning()` is true the body is skipped. -/
def QsubJob.terminate (j : QsubJob) (e : Env) : Out QsubJob :=
  match j.isRunning e with
  | none => .hang
  | some ((j1, running), e1) =>
    match running with
    | true => .ok j1 e1
    | false => .exn .nameError j1 e1

/-- The wait loop of `QsubJob.resubmit` (source lines 141-142):
`while self.isRunning(): time.sleep(5)`. -/
def resubmitWait : Nat → QsubJob → Env → Option (QsubJob × Env)
  | 0, _, _ => none
  | fuel + 1, j, e =>
    match j.isRunning e with
    | none => none
    | some ((j1, running), e1) =>
      match running with
      | true => resubmitWait fuel j1 e1
      | false => some (j1, e1)

/-- `QsubJob.resubmit` (source lines 134-148): terminate if running and
wait until not running, then clear the three flags and `start()` again. -/
def QsubJob.resubmit (j : QsubJob) (fuel : Nat) (e : Env) : Out QsubJob :=
  match j.isRunning e with
  | none => .hang
  | some ((j1, running), e1) =>
    match running with
    | true =>
      match j1.terminate e1 with
      | .hang => .hang
      | .exn err s e2 => .exn err s e2
      | .ok j2 e2 =>
        match resubmitWait fuel j2 e2 with
        | none => .hang
        | some (j3, e3) =>
          ({ j3 with
              submitted := false
              terminated := false
              finished := false }).start fuel e3
    | false =>
      ({ j1 with
          submitted := false
          terminated := false
          finished := false }).start fuel e1

/-- One externally invocable operation on a `QsubJob`. -/
inductive JobOp where
  | opStart (fuel : Nat)
  | opTerminate
  | opIsRunning
  | opResubmit (fuel : Nat)

/-- Run one operation on a job. -/
def JobOp.step (op : JobOp) (j : QsubJob) (e : Env) : Out QsubJob :=
  match op with
  | .opStart fuel => j.start fuel e
  | .opTerminate => j.terminate e
  | .opIsRunning =>
    match j.isRunning e with
    | none => .hang
    | some ((j1, _), e1) => .ok j1 e1
  | .opResubmit fuel => j.resubmit fuel e

/-- Run a sequence of operations on a job; an uncaught exception aborts the
sequence, exposing the state at the raise. -/
def runOps (j : QsubJob) : List JobOp → Env → Out QsubJob
  | [], e => .ok j e
  | op :: rest, e =>
    match op.step j e with
    | .hang => .hang
    | .exn err s e1 => .exn err s e1
    | .ok s e1 => runOps s rest e1

/-- `QstatJobs` (source lines 220-224): the body is `Qstat().njobs()`, so
the `user` argument is discarded and the query always runs for the default
(invoking) identity. -/
def QstatJobs (user : Option String) (e : Env) : Option (Nat × Env) :=
  Qstat.njobsE none e

/-- `os.path.basename`: the component after the last slash. -/
def basename (p : String) : String :=
  String.mk ((p.toList.reverse.takeWhile (fun c => c ≠ '/')).reverse)

/-- Root of `os.path.splitext`: strip the part from the last dot on, unless
every character before that dot is itself a dot (then there is no
extension). -/
def splitextRoot (f : String) : String :=
  let cs := f.toList
  match cs.reverse.findIdx? (fun c => c = '.') with
  | none => f
  | some k =>
    let dotPos := cs.length - 1 - k
    if (cs.take dotPos).all (fun c => c = '.') then f
    else String.mk (cs.take dotPos)

/-- Job name used by `RunPipeline` (source line 244). -/
def jobName (script : String) : String :=
  splitextRoot (basename script)

/-- Observable events of a `RunPipeline` run: a capacity poll with the
fresh `qstat.njobs()` count, a `time.sleep(poll_interval)`, and a job
submission. -/
inductive Ev where
  | pollCount (n : Nat)
  | sleep
  | submit (jid : String)
deriving Repr, DecidableEq

/-- State of a `RunPipeline` run: the `running_jobs` list, the retired jobs
(a specification ghost: Python drops them after logging), and the event
trace in reverse chronological order (most recent event first). -/
structure PState where
  running : List QsubJob
  done : List QsubJob
  rtrace : List Ev
deriving Repr, DecidableEq

/-- `UpdateRunningJobs` (source lines 272-287), with the retired jobs kept
as a second (ghost) component: the source logs and drops them. -/
def UpdateRunningJobs : List QsubJob → Env → Option ((List QsubJob × List QsubJob) × Env)
  | [], e => some (([], []), e)
  | j :: rest, e =>
    match j.isRunning e with
    | none => none
    | some ((j1, running), e1) =>
      match UpdateRunningJobs rest e1 with
      | none => none
      | some ((still, fin), e2) =>
        match running with
        | true => some ((j1 :: still, fin), e2)
        | false => some ((still, j1 :: fin), e2)

/-- The capacity loop of `RunPipeline` (source lines 253-256):
`while qstat.njobs() >= max_concurrent_jobs: time.sleep(poll_interval)`.
`pollDefined` records whether the module-level name `poll_interval` has
been assigned (it is assigned only in the `__main__` block); sleeping
without it raises NameError. -/
def capacityWait (maxc : Nat) (pollDefined : Bool) : Nat → PState → Env → Out PState
  | 0, _, _ => .hang
  | fuel + 1, s, e =>
    match Qstat.njobsE none e with
    | none => .hang
    | some (n, e1) =>
      if maxc ≤ n then
        match pollDefined with
        | true =>
          capacityWait maxc pollDefined fuel
            { s with rtrace := Ev.sleep :: Ev.pollCount n :: s.rtrace } e1
        | false => .exn .nameError { s with rtrace := Ev.pollCount n :: s.rtrace } e1
      else .ok { s with rtrace := Ev.pollCount n :: s.rtrace } e1

/-- The submission loop of `RunPipeline` (source lines 249-263): for each
task, refresh the running list, wait for queue capacity, then construct and
start a new job and append it. -/
def submitPhase (job_name : String) (working_dir : Option String) (script : String)
    (maxc : Nat) (pollDefined : Bool) (fuel : Nat) :
    List (List String) → PState → Env → Out PState
  | [], s, e => .ok s e
  | data :: rest, s, e =>
    match UpdateRunningJobs s.running e with
    | none => .hang
    | some ((still, fin), e1) =>
      match capacityWait maxc pollDefined fuel
          { s with running := still, done := s.done ++ fin } e1 with
      | .hang => .hang
      | .exn err s2 e2 => .exn err s2 e2
      | .ok s2 e2 =>
        match (QsubJob.make job_name working_dir script data).start fuel e2 with
        | .hang => .hang
        | .exn err _ e3 => .exn err s2 e3
        | .ok j1 e3 =>
          submitPhase job_name working_dir script maxc pollDefined fuel rest
            { s2 with
              running := s2.running ++ [j1]
              rtrace :=
                match j1.job_id with
                | some jid => Ev.submit jid :: s2.rtrace
                | none => s2.rtrace } e3

/-- The drain loop of `RunPipeline` (source lines 266-268):
`while len(running_jobs) > 0: running_jobs = UpdateRunningJobs(...);
time.sleep(poll_interval)`.  The sleep follows the refresh inside the loop
body, so it executes at least once whenever the loop is entered. -/
def finalWait (pollDefined : Bool) : Nat → PState → Env → Out PState
  | fuel, s, e =>
    if s.running = [] then .ok s e
    else
      match fuel with
      | 0 => .hang
      | fuel1 + 1 =>
        match UpdateRunningJobs s.running e with
        | none => .hang
        | some ((still, fin), e1) =>
          match pollDefined with
          | true =>
            finalWait pollDefined fuel1
              { s with running := still, done := s.done ++ fin, rtrace := Ev.sleep :: s.rtrace } e1
          | false =>
            .exn .nameError { s with running := still, done := s.done ++ fin } e1

/-- `RunPipeline` (source lines 227-270). -/
def RunPipeline (script : String) (run_data : List (List String))
    (working_dir : Option String) (max_concurrent_jobs : Nat)
    (pollDefined : Bool) (fuel : Nat) (e : Env) : Out PState :=
  match submitPhase (jobName script) working_dir script max_concurrent_jobs
      pollDefined fuel run_data { running := [], done := [], rtrace := [] } e with
  | .hang => .hang
  | .exn err s e1 => .exn err s e1
  | .ok s e1 => finalWait pollDefined fuel s e1

/-- One event of a reverse-chronological trace respects the admission
guard: a submission must sit directly on top of a capacity poll whose
count was strictly below the ceiling. -/
def submitGuardOk (maxc : Nat) (ev : Ev) (rest : List Ev) : Bool :=
  match ev with
  | .submit _ =>
    match rest with
    | .pollCount n :: _ => decide (n < maxc)
    | _ => false
  | _ => true

/-- Every submission in a reverse-chronological trace is directly preceded
(chronologically) by a capacity poll strictly below the ceiling. -/
def goodTraceR (maxc : Nat) : List Ev → Bool
  | [] => true
  | ev :: rest => submitGuardOk maxc ev rest && goodTraceR maxc rest

/-- A qsub stdout with no parseable job-id line (no line starts with
the prefix the source looks for). -/
def badQsubOut : List String := ["qsub: error: no job submitted"]

/-- Environment whose single qsub invocation reports no job id. -/
def envNoId : Env := { login := "me", qstat := [], qsub := [badQsubOut], log := [] }

/-- Environment offering no external interaction at all. -/
def envEmpty : Env := { login := "me", qstat := [], qsub := [], log := [] }

/-- qsub stdout reporting job id 101. -/
def qsubOut101 : List String := ["Your job 101 (qc) has been submitted"]

/-- qsub stdout reporting job id 202. -/
def qsubOut202 : List String := ["Your job 202 (qc) has been submitted"]

/-- A job in the retired state (submitted and finished) holding id 101. -/
def jobDone101 : QsubJob :=
  { name := "qc", working_dir := none, script := "qc.sh", args := ["a", "b"],
    job_id := some ("101"), log := some ("qc.o101"), submitted := true,
    terminated := false, finished := true }

/-- The state reached by starting a fresh job against an environment that
reports id 101 and lists it on the first poll. -/
def jobStarted101 : QsubJob :=
  { name := "qc", working_dir := none, script := "qc.sh", args := ["a", "b"],
    job_id := some ("101"), log := some ("qc.o101"), submitted := true,
    terminated := false, finished := false }

/-- Environment for one fresh submission that reports id 101 and lists it
on the first poll. -/
def envStart101 : Env :=
  { login := "me", qstat := [fun _ => ["101 0.5 qc me r"]], qsub := [qsubOut101],
    log := [] }

/-- Environment for one resubmission that reports id 101 again. -/
def envResub101 : Env :=
  { login := "me", qstat := [fun _ => ["101 0.5 qc me r"]], qsub := [qsubOut101],
    log := [] }

/-- Environment whose single qstat invocation produces malformed output
(no line with a leading all-digit token). -/
def envMalformed : Env :=
  { login := "me",
    qstat := [fun _ => ["error: commlib failure", "unable to contact qmaster"]],
    qsub := [], log := [] }

/-- Environment for one resubmission that reports the fresh id 202. -/
def envResub202 : Env :=
  { login := "me", qstat := [fun _ => ["202 0.5 qc me r"]], qsub := [qsubOut202],
    log := [] }

/-- qsub stdout reporting job id 102. -/
def qsubOut102 : List String := ["Your job 102 (qc) has been submitted"]

/-- Environment for a full two-task pipeline run: capacity polls, start
confirmations, then both jobs disappearing from the queue. -/
def envPipeline : Env :=
  { login := "me",
    qstat := [fun _ => [], fun _ => ["101 0.5 qc me r"], fun _ => ["101 0.5 qc me r"],
              fun _ => ["101 0.5 qc me r"], fun _ => ["101 0.5 qc me r", "102 0.5 qc me r"],
              fun _ => [], fun _ => []],
    qsub := [qsubOut101, qsubOut102], log := [] }

/-- Final state of the concrete two-task pipeline run. -/
def pipelineFinal : PState :=
  (RunPipeline ("qc.sh") [[("a")], [("b")]] none 4 true 8 envPipeline).toOk.getD
    { running := [], done := [], rtrace := [] }

/-- The empty pipeline state. -/
def pEmpty : PState := { running := [], done := [], rtrace := [] }

/-- A pipeline state with one outstanding (already finished) job. -/
def pRunning : PState := { running := [jobDone101], done := [], rtrace := [] }

/-- Environment whose single qstat invocation lists one job. -/
def envBusy : Env :=
  { login := "me", qstat := [fun _ => ["101 0.5 qc me r"]], qsub := [], log := [] }

/-- Helper lemma: `isRunning` either leaves the job unchanged or only sets
the `finished` flag; it reports `true` only on the unchanged job, and a
`false` report on a submitted job means the `finished` flag holds. -/
theorem isRunning_cases (j : QsubJob) (e : Env) (j1 : QsubJob) (b : Bool) (e1 : Env)
    (h : j.isRunning e = some ((j1, b), e1)) :
    (j1 = j ∨ j1 = { j with finished := true }) ∧
    (b = true → j1 = j) ∧
    (b = false → j.submitted = true → j1.finished = true) := by
  unfold QsubJob.isRunning at h
  cases hs : j.submitted with
  | false =>
    simp only [hs, Option.some.injEq, Prod.mk.injEq] at h
    obtain ⟨⟨hj, hb⟩, _⟩ := h
    subst hj; subst hb
    exact ⟨Or.inl rfl, fun _ => rfl,
      fun _ hsub => absurd hsub Bool.false_ne_true⟩
  | true =>
    cases hf : j.finished with
    | true =>
      simp only [hs, hf, Option.some.injEq, Prod.mk.injEq] at h
      obtain ⟨⟨hj, hb⟩, _⟩ := h
      subst hj; subst hb
      exact ⟨Or.inl rfl, fun _ => rfl, fun _ _ => hf⟩
    | false =>
      simp only [hs, hf] at h
      cases hq : Qstat.hasJobE j.job_id e with
      | none => rw [hq] at h; cases h
      | some pe =>
        obtain ⟨present, e2⟩ := pe
        rw [hq] at h
        cases present with
        | true =>
          simp only [Option.some.injEq, Prod.mk.injEq] at h
          obtain ⟨⟨hj, hb⟩, _⟩ := h
          subst hj; subst hb
          exact ⟨Or.inl rfl, fun _ => rfl, fun hb1 => absurd hb1 (by simp)⟩
        | false =>
          simp only [Option.some.injEq, Prod.mk.injEq] at h
          obtain ⟨⟨hj, hb⟩, _⟩ := h
          subst hj; subst hb
          exact ⟨Or.inr rfl, fun hb1 => absurd hb1 (by simp), fun _ _ => rfl⟩

/-- Helper lemma: `isRunning` touches no field other than `finished`. -/
theorem isRunning_fields (j : QsubJob) (e : Env) (j1 : QsubJob) (b : Bool) (e1 : Env)
    (h : j.isRunning e = some ((j1, b), e1)) :
    j1.submitted = j.submitted ∧ j1.job_id = j.job_id ∧ j1.terminated = j.terminated ∧
    j1.name = j.name ∧ j1.working_dir = j.working_dir ∧ j1.script = j.script ∧
    j1.args = j.args := by
  rcases (isRunning_cases j e j1 b e1 h).1 with h1 | h1 <;> subst h1 <;>
    exact ⟨rfl, rfl, rfl, rfl, rfl, rfl, rfl⟩

/-- Helper lemma: a normal completion of `start` either took the no-op
branch (job already submitted or finished, state unchanged) or recorded a
fresh submission (submitted flag true and a present identifier, with the
other flags and the task data untouched). -/
theorem start_ok_cases (j : QsubJob) (fuel : Nat) (e : Env) (j1 : QsubJob) (e1 : Env)
    (h : j.start fuel e = .ok j1 e1) :
    ((j.submitted = true ∨ j.finished = true) ∧ j1 = j) ∨
    (j1.submitted = true ∧ j1.job_id.isSome = true ∧ j1.finished = j.finished ∧
     j1.terminated = j.terminated ∧ j1.name = j.name ∧
     j1.working_dir = j.working_dir ∧ j1.script = j.script ∧ j1.args = j.args) := by
  unfold QsubJob.start at h
  split at h
  · rename_i hc
    cases h
    exact Or.inl ⟨Bool.or_eq_true_iff.mp hc, rfl⟩
  · split at h
    · exact Out.noConfusion h
    · split at h
      · exact Out.noConfusion h
      · exact Out.noConfusion h
      · split at h
        · exact Out.noConfusion h
        · cases h
          exact Or.inr ⟨rfl, rfl, rfl, rfl, rfl, rfl, rfl, rfl⟩

/-- Helper lemma: a `start` that completes normally from an unsubmitted,
unfinished job records a submission. -/
theorem start_fresh_ok (j : QsubJob) (fuel : Nat) (e : Env) (j1 : QsubJob) (e1 : Env)
    (hs : j.submitted = false) (hf : j.finished = false)
    (h : j.start fuel e = .ok j1 e1) :
    j1.submitted = true ∧ j1.finished = false ∧ j1.job_id.isSome = true := by
  rcases start_ok_cases j fuel e j1 e1 h with ⟨hc, _⟩ | hgood
  · rcases hc with hc | hc
    · exact absurd (hs.symm.trans hc) Bool.false_ne_true
    · exact absurd (hf.symm.trans hc) Bool.false_ne_true
  · exact ⟨hgood.1, hgood.2.2.1.trans hf, hgood.2.1⟩

/-- Helper lemma: every observable state of `start` (normal completion or
state at a raise) has the `terminated` flag the input had. -/
theorem start_obs_terminated (j : QsubJob) (fuel : Nat) (e : Env) (s : QsubJob)
    (h : (j.start fuel e).obs = some s) : s.terminated = j.terminated := by
  unfold QsubJob.start at h
  split at h
  · simp only [Out.obs, Option.some.injEq] at h
    subst h; rfl
  · split at h
    · simp [Out.obs] at h
    · split at h
      · simp only [Out.obs, Option.some.injEq] at h
        subst h; rfl
      · simp only [Out.obs, Option.some.injEq] at h
        subst h; rfl
      · split at h
        · simp [Out.obs] at h
        · simp only [Out.obs, Option.some.injEq] at h
          subst h; rfl

/-- Helper lemma: a `start` on a finished job is a no-op returning the old
identifier: no submission is issued, no state or environment changes. -/
theorem start_skip_finished (j : QsubJob) (fuel : Nat) (e : Env) (hf : j.finished = true) :
    j.start fuel e = .ok j e := by
  unfold QsubJob.start
  rw [hf, Bool.or_true]

/-- Helper lemma: a normal completion of `terminate` leaves the job
exactly as `isRunning` reported it running. -/
theorem terminate_ok (j : QsubJob) (e : Env) (s : QsubJob) (e1 : Env)
    (h : j.terminate e = .ok s e1) : s = j := by
  unfold QsubJob.terminate at h
  cases hr : j.isRunning e with
  | none => simp only [hr] at h; exact Out.noConfusion h
  | some pe =>
    obtain ⟨⟨j1, running⟩, e2⟩ := pe
    cases running with
    | true =>
      simp only [hr] at h
      cases h
      exact (isRunning_cases j e s true e1 hr).2.1 rfl
    | false => simp only [hr] at h; exact Out.noConfusion h

/-- Helper lemma: every observable state of `terminate` is the input job
with at most the `finished` flag newly set; in particular the `terminated`
flag is never set. -/
theorem terminate_obs (j : QsubJob) (e : Env) (s : QsubJob)
    (h : (j.terminate e).obs = some s) :
    s = j ∨ s = { j with finished := true } := by
  unfold QsubJob.terminate at h
  cases hr : j.isRunning e with
  | none => simp only [hr, Out.obs] at h; exact Option.noConfusion h
  | some pe =>
    obtain ⟨⟨j1, running⟩, e2⟩ := pe
    cases running with
    | true =>
      simp only [hr, Out.obs, Option.some.injEq] at h
      cases h
      exact (isRunning_cases j e s true e2 hr).1
    | false =>
      simp only [hr, Out.obs, Option.some.injEq] at h
      cases h
      exact (isRunning_cases j e s false e2 hr).1

/-- Helper lemma: the resubmission wait loop only ever flips the
`finished` flag of the job it polls. -/
theorem resubmitWait_fields (fuel : Nat) (j : QsubJob) (e : Env) (j1 : QsubJob) (e1 : Env)
    (h : resubmitWait fuel j e = some (j1, e1)) :
    j1.submitted = j.submitted ∧ j1.job_id = j.job_id ∧ j1.terminated = j.terminated := by
  induction fuel generalizing j e with
  | zero => exact Option.noConfusion h
  | succ n ih =>
    unfold resubmitWait at h
    cases hr : j.isRunning e with
    | none => simp only [hr] at h; exact Option.noConfusion h
    | some pe =>
      obtain ⟨⟨j2, running⟩, e2⟩ := pe
      have hf := isRunning_fields j e j2 running e2 hr
      cases running with
      | true =>
        simp only [hr] at h
        have hrec := ih j2 e2 h
        exact ⟨hrec.1.trans hf.1, hrec.2.1.trans hf.2.1, hrec.2.2.trans hf.2.2.1⟩
      | false =>
        simp only [hr, Option.some.injEq, Prod.mk.injEq] at h
        obtain ⟨hj, _⟩ := h
        cases hj
        exact ⟨hf.1, hf.2.1, hf.2.2.1⟩

/-- Helper lemma: a normal completion of `resubmit` ends in a freshly
submitted state: submitted flag true and an identifier present. -/
theorem resubmit_ok_submitted (j : QsubJob) (fuel : Nat) (e : Env) (s : QsubJob) (e1 : Env)
    (h : j.resubmit fuel e = .ok s e1) :
    s.submitted = true ∧ s.job_id.isSome = true := by
  unfold QsubJob.resubmit at h
  cases hr : j.isRunning e with
  | none => simp only [hr] at h; exact Out.noConfusion h
  | some pe =>
    obtain ⟨⟨j1, running⟩, e2⟩ := pe
    cases running with
    | true =>
      simp only [hr] at h
      cases ht : j1.terminate e2 with
      | hang => simp only [ht] at h; exact Out.noConfusion h
      | exn err s2 e3 => simp only [ht] at h; exact Out.noConfusion h
      | ok j2 e3 =>
        simp only [ht] at h
        cases hw : resubmitWait fuel j2 e3 with
        | none => simp only [hw] at h; exact Out.noConfusion h
        | some pe2 =>
          obtain ⟨j3, e4⟩ := pe2
          simp only [hw] at h
          have hgood := start_fresh_ok _ fuel e4 s e1 rfl rfl h
          exact ⟨hgood.1, hgood.2.2⟩
    | false =>
      simp only [hr] at h
      have hgood := start_fresh_ok _ fuel e2 s e1 rfl rfl h
      exact ⟨hgood.1, hgood.2.2⟩

/-- Helper lemma: every observable state of `resubmit` from a job whose
`terminated` flag is clear keeps that flag clear. -/
theorem resubmit_obs_terminated (j : QsubJob) (fuel : Nat) (e : Env) (s : QsubJob)
    (h : (j.resubmit fuel e).obs = some s) (ht : j.terminated = false) :
    s.terminated = false := by
  unfold QsubJob.resubmit at h
  cases hr : j.isRunning e with
  | none => simp only [hr, Out.obs] at h; exact Option.noConfusion h
  | some pe =>
    obtain ⟨⟨j1, running⟩, e2⟩ := pe
    have hj1 : j1.terminated = false :=
      ((isRunning_fields j e j1 running e2 hr).2.2.1).trans ht
    cases running with
    | true =>
      simp only [hr] at h
      cases ht2 : j1.terminate e2 with
      | hang => simp only [ht2, Out.obs] at h; exact Option.noConfusion h
      | exn err s2 e3 =>
        simp only [ht2, Out.obs, Option.some.injEq] at h
        cases h
        rcases terminate_obs j1 e2 s (by rw [ht2]; rfl) with h1 | h1 <;>
          rw [h1] <;> simpa using hj1
      | ok j2 e3 =>
        simp only [ht2] at h
        cases hw : resubmitWait fuel j2 e3 with
        | none => simp only [hw, Out.obs] at h; exact Option.noConfusion h
        | some pe2 =>
          obtain ⟨j3, e4⟩ := pe2
          simp only [hw] at h
          have := start_obs_terminated _ fuel e4 s h
          simpa using this
    | false =>
      simp only [hr] at h
      have := start_obs_terminated _ fuel e2 s h
      simpa using this

/-- Helper lemma: one job operation preserves a clear `terminated` flag on
every observable state. -/
theorem step_obs_terminated (op : JobOp) (j : QsubJob) (e : Env) (s : QsubJob)
    (h : (op.step j e).obs = some s) (ht : j.terminated = false) :
    s.terminated = false := by
  cases op with
  | opStart fuel => exact (start_obs_terminated j fuel e s h).trans ht
  | opTerminate =>
    rcases terminate_obs j e s h with h1 | h1 <;> rw [h1] <;> simpa using ht
  | opIsRunning =>
    simp only [JobOp.step] at h
    cases hr : j.isRunning e with
    | none => simp only [hr, Out.obs] at h; exact Option.noConfusion h
    | some pe =>
      obtain ⟨⟨j1, b⟩, e1⟩ := pe
      simp only [hr, Out.obs, Option.some.injEq] at h
      cases h
      exact ((isRunning_fields j e s b e1 hr).2.2.1).trans ht
  | opResubmit fuel => exact resubmit_obs_terminated j fuel e s h ht

/-- Helper lemma: a run of job operations preserves a clear `terminated`
flag on every observable state, normal or at a raise. -/
theorem runOps_obs_terminated (ops : List JobOp) (j : QsubJob) (e : Env) (s : QsubJob)
    (h : (runOps j ops e).obs = some s) (ht : j.terminated = false) :
    s.terminated = false := by
  induction ops generalizing j e with
  | nil =>
    simp only [runOps, Out.obs, Option.some.injEq] at h
    cases h; exact ht
  | cons op rest ih =>
    simp only [runOps] at h
    cases hstep : op.step j e with
    | hang => simp only [hstep, Out.obs] at h; exact Option.noConfusion h
    | exn err s1 e1 =>
      simp only [hstep, Out.obs, Option.some.injEq] at h
      cases h
      exact step_obs_terminated op j e s (by rw [hstep]; rfl) ht
    | ok s1 e1 =>
      simp only [hstep] at h
      exact ih s1 e1 h (step_obs_terminated op j e s1 (by rw [hstep]; rfl) ht)

/-- Helper lemma: one normally completing job operation preserves the
invariant that the identifier is present exactly when the submitted flag is
set. -/
theorem step_ok_inv (op : JobOp) (j : QsubJob) (e : Env) (s : QsubJob) (e1 : Env)
    (h : op.step j e = .ok s e1) (hinv : j.job_id.isSome = j.submitted) :
    s.job_id.isSome = s.submitted := by
  cases op with
  | opStart fuel =>
    rcases start_ok_cases j fuel e s e1 h with ⟨_, hj⟩ | hgood
    · rw [hj]; exact hinv
    · rw [hgood.1, hgood.2.1]
  | opTerminate =>
    rw [terminate_ok j e s e1 h]; exact hinv
  | opIsRunning =>
    simp only [JobOp.step] at h
    cases hr : j.isRunning e with
    | none => simp only [hr] at h; exact Out.noConfusion h
    | some pe =>
      obtain ⟨⟨j1, b⟩, e2⟩ := pe
      simp only [hr] at h
      cases h
      have hf := isRunning_fields j e s b e1 hr
      rw [hf.1, hf.2.1]; exact hinv
  | opResubmit fuel =>
    have hgood := resubmit_ok_submitted j fuel e s e1 h
    rw [hgood.1, hgood.2]

/-- Helper lemma: a normally completing run of job operations preserves the
identifier-iff-submitted invariant. -/
theorem runOps_ok_inv (ops : List JobOp) (j : QsubJob) (e : Env) (s : QsubJob)
    (h : (runOps j ops e).toOk = some s) (hinv : j.job_id.isSome = j.submitted) :
    s.job_id.isSome = s.submitted := by
  induction ops generalizing j e with
  | nil =>
    simp only [runOps, Out.toOk, Option.some.injEq] at h
    cases h; exact hinv
  | cons op rest ih =>
    simp only [runOps] at h
    cases hstep : op.step j e with
    | hang => simp only [hstep, Out.toOk] at h; exact Option.noConfusion h
    | exn err s1 e1 => simp only [hstep, Out.toOk] at h; exact Option.noConfusion h
    | ok s1 e1 =>
      simp only [hstep] at h
      exact ih s1 e1 h (step_ok_inv op j e s1 e1 hstep hinv)

/-- C3 counterexample: on a qsub output with no identifiable job-id line the
submit operation does not fail at all - it returns `None` (`.ok none`) - and
`start()` on such a submission raises a `TypeError` (while composing the log
name, after setting the submitted flag), not a `SubmissionError`; no such
error class exists in the program. -/
theorem submission_no_id_cex :
    qsubParse badQsubOut = .ok none ∧
    ((QsubJob.make ("qc") none ("qc.sh") []).start 1 envNoId).toExn =
      some PyErr.typeError := by
  exact ⟨rfl, rfl⟩

/-- C3 (amended): for every submission whose tool output contains no line
starting with the id prefix, `QsubScript` returns `None` (no error), and
`Job.start()` invoked on such a submission raises a `TypeError` while
deriving the log-file name - after having set the submitted flag and
cleared the identifier - rather than recording a successful submission. -/
theorem start_no_id_raises_typeError (j : QsubJob) (fuel : Nat) (e : Env)
    (out : List String) (qs1 : List (List String))
    (hs : j.submitted = false) (hf : j.finished = false)
    (hq : e.qsub = out :: qs1) (hp : qsubParse out = .ok none) :
    j.start fuel e =
      .exn .typeError { j with job_id := none, submitted := true }
        { e with qsub := qs1 } := by
  have hpop : e.popQsub = some (out, { e with qsub := qs1 }) := by
    simp only [Env.popQsub, hq]
  unfold QsubJob.start
  simp only [hs, hf, Bool.or_self, hpop, hp]

/-- Witness for the amended C3 theorem at a concrete input. -/
theorem start_no_id_raises_typeError_witness :
    (QsubJob.make ("qc") none ("qc.sh") []).start 1 envNoId =
      .exn .typeError
        { QsubJob.make ("qc") none ("qc.sh") [] with job_id := none, submitted := true }
        { envNoId with qsub := [] } :=
  start_no_id_raises_typeError (QsubJob.make ("qc") none ("qc.sh") []) 1 envNoId
    badQsubOut [] rfl rfl rfl rfl

/-- C4 counterexample: after a single `start()` whose qsub output carries no
job-id line, the observable job state has the submitted flag set while the
identifier is absent, refuting \"identifier set iff submitted\" over all
operation sequences. -/
theorem job_id_iff_submitted_cex :
    ((runOps (QsubJob.make ("qc") none ("qc.sh") []) [JobOp.opStart 1] envNoId).obs.map
      (fun s => decide (s.job_id.isSome = s.submitted))) = some false := by
  rfl

/-- C4 (amended): for every Job and every sequence of operations each of
which completes without raising, the identifier is set (non-null) exactly
when the submitted flag is true; the lone exception is the `TypeError`
raise inside `start()` on an unparseable submission output, which leaves
the job submitted with no identifier. -/
theorem runOps_preserves_job_id_iff_submitted (j : QsubJob) (ops : List JobOp)
    (e : Env) (s : QsubJob) (hinv : j.job_id.isSome = j.submitted)
    (h : (runOps j ops e).toOk = some s) :
    s.job_id.isSome = s.submitted :=
  runOps_ok_inv ops j e s h hinv

/-- Witness for the amended C4 theorem at a concrete input. -/
theorem runOps_preserves_job_id_iff_submitted_witness :
    jobStarted101.job_id.isSome = jobStarted101.submitted :=
  runOps_preserves_job_id_iff_submitted (QsubJob.make ("qc") none ("qc.sh") [("a"), ("b")])
    [JobOp.opStart 1] envStart101 jobStarted101 rfl rfl

/-- C5: for every Job created by the constructor and every sequence of
operations, on every observable state the finished and terminated flags are
never both true (the `terminated` flag in fact never becomes true at all,
because `terminate()` raises `NameError` before the assignment), and once a
terminal flag is set `start()` is a no-op: no further submission occurs
without the explicit `resubmit` reset. -/
theorem job_terminal_flags_exclusive (name : String) (dirn : Option String)
    (script : String) (args : List String) (ops : List JobOp) (e : Env) (s : QsubJob)
    (h : (runOps (QsubJob.make name dirn script args) ops e).obs = some s) :
    ¬(s.finished = true ∧ s.terminated = true) ∧ s.terminated = false ∧
    ((s.finished = true ∨ s.terminated = true) →
      ∀ fuel eA, s.start fuel eA = .ok s eA) := by
  have hterm : s.terminated = false :=
    runOps_obs_terminated ops (QsubJob.make name dirn script args) e s h rfl
  refine ⟨fun hc => Bool.noConfusion (hc.2.symm.trans hterm), hterm, ?_⟩
  intro hor fuel eA
  rcases hor with hfin | htt
  · exact start_skip_finished s fuel eA hfin
  · exact absurd (htt.symm.trans hterm) (by simp)

/-- Witness for the C5 theorem at a concrete input. -/
theorem job_terminal_flags_exclusive_witness :
    ¬(jobStarted101.finished = true ∧ jobStarted101.terminated = true) ∧
    jobStarted101.terminated = false ∧
    ((jobStarted101.finished = true ∨ jobStarted101.terminated = true) →
      ∀ fuel eA, jobStarted101.start fuel eA = .ok jobStarted101 eA) :=
  job_terminal_flags_exclusive ("qc") none ("qc.sh") [("a"), ("b")]
    [JobOp.opStart 1] envStart101 jobStarted101 rfl

/-- C7 counterexample: resubmitting the retired job 101 against a scheduler
whose submission tool reports the same id 101 again records an identifier
equal to the prior one, refuting the claim that the new identifier is
always distinct. -/
theorem resubmit_same_id_cex :
    ((jobDone101.resubmit 1 envResub101).toOk.map QsubJob.job_id) =
      some jobDone101.job_id := by
  rfl

/-- C7 (amended): resubmitting a retired Job preserves its original task
arguments, working directory, script and name, and records exactly the
identifier parsed from the new submission's tool output; that identifier is
distinct from the prior one precisely when the scheduler reports a distinct
one. -/
theorem resubmit_preserves_args_and_records_reported_id
    (j : QsubJob) (fuel : Nat) (e : Env) (out : List String)
    (qs1 : List (List String)) (nid : String) (e2 : Env)
    (hsub : j.submitted = true) (hfin : j.finished = true)
    (hq : e.qsub = out :: qs1) (hp : qsubParse out = .ok (some nid))
    (hw : startWait nid fuel { e with qsub := qs1 } = some e2) :
    ∃ jR, j.resubmit fuel e = .ok jR e2 ∧ jR.name = j.name ∧ jR.args = j.args ∧
      jR.working_dir = j.working_dir ∧ jR.script = j.script ∧
      jR.job_id = some nid ∧
      (j.job_id ≠ some nid → jR.job_id ≠ j.job_id) := by
  have hr : j.isRunning e = some ((j, false), e) := by
    unfold QsubJob.isRunning
    rw [hsub, hfin]
  have hpop : e.popQsub = some (out, { e with qsub := qs1 }) := by
    simp only [Env.popQsub, hq]
  refine ⟨{ j with job_id := some nid, submitted := true, terminated := false, finished := false, log := some (j.name ++ ".o" ++ nid) }, ?_, rfl, rfl, rfl, rfl, rfl, ?_⟩
  · unfold QsubJob.resubmit
    simp only [hr]
    unfold QsubJob.start
    simp only [Bool.or_self, hpop, hp, hw]
  · intro hne heq
    exact hne (heq.symm)

/-- Witness for the amended C7 theorem at a concrete input. -/
theorem resubmit_preserves_args_and_records_reported_id_witness :
    ∃ jR, jobDone101.resubmit 1 envResub202 =
        .ok jR { login := "me", qstat := [], qsub := [], log := [] } ∧
      jR.name = jobDone101.name ∧ jR.args = jobDone101.args ∧
      jR.working_dir = jobDone101.working_dir ∧ jR.script = jobDone101.script ∧
      jR.job_id = some ("202") ∧
      (jobDone101.job_id ≠ some ("202") → jR.job_id ≠ jobDone101.job_id) :=
  resubmit_preserves_args_and_records_reported_id jobDone101 1 envResub202
    qsubOut202 [] ("202") { login := "me", qstat := [], qsub := [], log := [] }
    rfl rfl rfl rfl rfl

/-- C8: whenever `isRunning()` reports false, `terminate()` raises a
`NameError` - the body evaluates the undefined name `Qdeljob` while the
defined function is `QdelJob` - so no `qdel` cancel request is ever built
and the terminated flag is left exactly as it was. -/
theorem terminate_not_running_nameError (j : QsubJob) (e : Env) (j1 : QsubJob) (e1 : Env)
    (h : j.isRunning e = some ((j1, false), e1)) :
    j.terminate e = .exn .nameError j1 e1 ∧ j1.terminated = j.terminated := by
  constructor
  · unfold QsubJob.terminate
    simp only [h]
  · exact (isRunning_fields j e j1 false e1 h).2.2.1

/-- Witness for the C8 theorem at a concrete input. -/
theorem terminate_not_running_nameError_witness :
    jobDone101.terminate envEmpty = .exn .nameError jobDone101 envEmpty ∧
      jobDone101.terminated = jobDone101.terminated :=
  terminate_not_running_nameError jobDone101 envEmpty jobDone101 envEmpty rfl

/-- C6 (code defect): malformed query output - lines from which no job
identifier can be parsed - yields the empty identifier list, which is
indistinguishable from an empty queue, and a submitted job absent from that
parse IS transitioned to finished by `isRunning()` on the basis of exactly
such a query, contrary to the required treat-as-no-information behaviour. -/
theorem isRunning_malformed_output_finishes :
    qstatParse ["error: commlib failure", "unable to contact qmaster"] = [] ∧
    ((jobStarted101.isRunning envMalformed).map (fun r => (r.1.1.finished, r.1.2))) =
      some (true, false) := by
  exact ⟨rfl, rfl⟩

/-- C10: `QstatJobs(user)` ignores its user argument: for every value of
the argument it performs the default-identity query `Qstat().njobs()`
(whose command line is `qstat -u <login>`) and returns that count. -/
theorem QstatJobs_ignores_user (user : Option String) (e : Env) :
    QstatJobs user e = Qstat.njobsE none e ∧
    (∀ u2, QstatJobs user e = QstatJobs u2 e) ∧
    Qstat.listCmd none e.login = ["qstat", "-u", e.login] := by
  exact ⟨rfl, fun _ => rfl, rfl⟩

/-- Helper lemma: `UpdateRunningJobs` keeps the surviving jobs submitted,
retires only jobs whose finished flag holds, and preserves the total job
count. -/
theorem update_props (l : List QsubJob) (e : Env) (still fin : List QsubJob) (e1 : Env)
    (hsub : ∀ j ∈ l, j.submitted = true)
    (h : UpdateRunningJobs l e = some ((still, fin), e1)) :
    (∀ j ∈ still, j.submitted = true) ∧
    (∀ j ∈ fin, j.submitted = true ∧ j.finished = true) ∧
    still.length + fin.length = l.length := by
  induction l generalizing e still fin e1 with
  | nil =>
    simp only [UpdateRunningJobs, Option.some.injEq, Prod.mk.injEq] at h
    obtain ⟨⟨h1, h2⟩, _⟩ := h
    subst h1; subst h2
    exact ⟨fun j hj => absurd hj (List.not_mem_nil j),
      fun j hj => absurd hj (List.not_mem_nil j), rfl⟩
  | cons j rest ih =>
    simp only [UpdateRunningJobs] at h
    cases hr : j.isRunning e with
    | none => simp only [hr] at h; exact Option.noConfusion h
    | some pe =>
      obtain ⟨⟨j1, running⟩, e2⟩ := pe
      have hjs : j.submitted = true := hsub j (List.mem_cons_self j rest)
      have hfields := isRunning_fields j e j1 running e2 hr
      have hj1s : j1.submitted = true := hfields.1.trans hjs
      have hrest : ∀ x ∈ rest, x.submitted = true :=
        fun x hx => hsub x (List.mem_cons_of_mem j hx)
      simp only [hr] at h
      cases hu : UpdateRunningJobs rest e2 with
      | none => simp only [hu] at h; exact Option.noConfusion h
      | some pu =>
        obtain ⟨⟨still2, fin2⟩, e3⟩ := pu
        have hrec := ih e2 still2 fin2 e3 hrest hu
        simp only [hu] at h
        cases running with
        | true =>
          simp only [Option.some.injEq, Prod.mk.injEq] at h
          obtain ⟨⟨h1, h2⟩, _⟩ := h
          subst h1; subst h2
          refine ⟨?_, hrec.2.1, ?_⟩
          · intro x hx
            rcases List.mem_cons.mp hx with hx | hx
            · rw [hx]; exact hj1s
            · exact hrec.1 x hx
          · have := hrec.2.2
            simp only [List.length_cons]
            omega
        | false =>
          have hj1f : j1.finished = true :=
            (isRunning_cases j e j1 false e2 hr).2.2 rfl hjs
          simp only [Option.some.injEq, Prod.mk.injEq] at h
          obtain ⟨⟨h1, h2⟩, _⟩ := h
          subst h1; subst h2
          refine ⟨hrec.1, ?_, ?_⟩
          · intro x hx
            rcases List.mem_cons.mp hx with hx | hx
            · rw [hx]; exact ⟨hj1s, hj1f⟩
            · exact hrec.2.1 x hx
          · have := hrec.2.2
            simp only [List.length_cons]
            omega

/-- Helper lemma: pushing a capacity-poll event preserves trace
admissibility. -/
theorem goodTraceR_cons_pollCount (maxc n : Nat) (tr : List Ev)
    (h : goodTraceR maxc tr = true) :
    goodTraceR maxc (Ev.pollCount n :: tr) = true := by
  simp only [goodTraceR, submitGuardOk, Bool.true_and]
  exact h

/-- Helper lemma: pushing a sleep event preserves trace admissibility. -/
theorem goodTraceR_cons_sleep (maxc : Nat) (tr : List Ev)
    (h : goodTraceR maxc tr = true) :
    goodTraceR maxc (Ev.sleep :: tr) = true := by
  simp only [goodTraceR, submitGuardOk, Bool.true_and]
  exact h

/-- Helper lemma: pushing a submission directly on top of a
strictly-below-ceiling poll preserves trace admissibility. -/
theorem goodTraceR_cons_submit (maxc n : Nat) (jid : String) (tl : List Ev)
    (hn : n < maxc) (h : goodTraceR maxc (Ev.pollCount n :: tl) = true) :
    goodTraceR maxc (Ev.submit jid :: Ev.pollCount n :: tl) = true := by
  have hd : decide (n < maxc) = true := decide_eq_true hn
  simp only [goodTraceR, submitGuardOk, Bool.true_and] at h ⊢
  simp only [hd, Bool.true_and]
  exact h

/-- Helper lemma: a normal completion of the capacity loop leaves the job
lists untouched and ends with a strictly-below-ceiling poll on top of the
trace, preserving admissibility. -/
theorem capacityWait_ok (maxc : Nat) (pd : Bool) (fuel : Nat) (s : PState) (e : Env)
    (s2 : PState) (e2 : Env) (h : capacityWait maxc pd fuel s e = .ok s2 e2) :
    s2.running = s.running ∧ s2.done = s.done ∧
    (∃ n tl, s2.rtrace = Ev.pollCount n :: tl ∧ n < maxc) ∧
    (goodTraceR maxc s.rtrace = true → goodTraceR maxc s2.rtrace = true) := by
  induction fuel generalizing s e with
  | zero => exact Out.noConfusion h
  | succ fuel ih =>
    simp only [capacityWait] at h
    cases hn : Qstat.njobsE none e with
    | none => simp only [hn] at h; exact Out.noConfusion h
    | some pe =>
      obtain ⟨n, e1⟩ := pe
      simp only [hn] at h
      by_cases hc : maxc ≤ n
      · rw [if_pos hc] at h
        cases pd with
        | true =>
          have hrec := ih { s with rtrace := Ev.sleep :: Ev.pollCount n :: s.rtrace } e1 h
          refine ⟨hrec.1, hrec.2.1, hrec.2.2.1, ?_⟩
          intro hg
          exact hrec.2.2.2
            (goodTraceR_cons_sleep maxc _ (goodTraceR_cons_pollCount maxc n s.rtrace hg))
        | false => exact Out.noConfusion h
      · rw [if_neg hc] at h
        cases h
        refine ⟨rfl, rfl, ⟨n, s.rtrace, rfl, Nat.lt_of_not_le hc⟩, ?_⟩
        intro hg
        exact goodTraceR_cons_pollCount maxc n s.rtrace hg

/-- Helper lemma: a normal completion of the drain loop empties the running
list, keeps retired jobs finished, and preserves the total count and trace
admissibility. -/
theorem finalWait_ok (maxc : Nat) (pd : Bool) (fuel : Nat) (s : PState) (e : Env)
    (s2 : PState) (e2 : Env)
    (hr : ∀ j ∈ s.running, j.submitted = true)
    (hd : ∀ j ∈ s.done, j.submitted = true ∧ j.finished = true)
    (h : finalWait pd fuel s e = .ok s2 e2) :
    s2.running = [] ∧ (∀ j ∈ s2.done, j.submitted = true ∧ j.finished = true) ∧
    s2.running.length + s2.done.length = s.running.length + s.done.length ∧
    (goodTraceR maxc s.rtrace = true → goodTraceR maxc s2.rtrace = true) := by
  induction fuel generalizing s e with
  | zero =>
    simp only [finalWait] at h
    by_cases hre : s.running = []
    · rw [if_pos hre] at h
      cases h
      exact ⟨hre, hd, rfl, fun hg => hg⟩
    · rw [if_neg hre] at h
      exact Out.noConfusion h
  | succ fuel ih =>
    simp only [finalWait] at h
    by_cases hre : s.running = []
    · rw [if_pos hre] at h
      cases h
      exact ⟨hre, hd, rfl, fun hg => hg⟩
    · rw [if_neg hre] at h
      cases hu : UpdateRunningJobs s.running e with
      | none => simp only [hu] at h; exact Out.noConfusion h
      | some pu =>
        obtain ⟨⟨still, fin⟩, e1⟩ := pu
        simp only [hu] at h
        have hup := update_props s.running e still fin e1 hr hu
        cases pd with
        | false => exact Out.noConfusion h
        | true =>
          have hr2 : ∀ j ∈ still, j.submitted = true := hup.1
          have hd2 : ∀ j ∈ s.done ++ fin, j.submitted = true ∧ j.finished = true := by
            intro x hx
            rcases List.mem_append.mp hx with hx | hx
            · exact hd x hx
            · exact hup.2.1 x hx
          have hrec := ih { s with running := still, done := s.done ++ fin, rtrace := Ev.sleep :: s.rtrace } e1 hr2 hd2 h
          refine ⟨hrec.1, hrec.2.1, ?_, ?_⟩
          · have hcount := hrec.2.2.1
            have hlen := hup.2.2
            simp only [List.length_append] at hcount
            omega
          · intro hg
            exact hrec.2.2.2 (goodTraceR_cons_sleep maxc s.rtrace hg)

/-- Helper lemma: a normal completion of the submission loop keeps running
jobs submitted and retired jobs finished, adds exactly one job per task,
and preserves trace admissibility. -/
theorem submitPhase_ok (jn : String) (wd : Option String) (sc : String)
    (maxc : Nat) (pd : Bool) (fuel : Nat) (run_data : List (List String))
    (s : PState) (e : Env) (s2 : PState) (e2 : Env)
    (hr : ∀ j ∈ s.running, j.submitted = true)
    (hd : ∀ j ∈ s.done, j.submitted = true ∧ j.finished = true)
    (h : submitPhase jn wd sc maxc pd fuel run_data s e = .ok s2 e2) :
    (∀ j ∈ s2.running, j.submitted = true) ∧
    (∀ j ∈ s2.done, j.submitted = true ∧ j.finished = true) ∧
    s2.running.length + s2.done.length
      = s.running.length + s.done.length + run_data.length ∧
    (goodTraceR maxc s.rtrace = true → goodTraceR maxc s2.rtrace = true) := by
  induction run_data generalizing s e with
  | nil =>
    simp only [submitPhase] at h
    cases h
    exact ⟨hr, hd, rfl, fun hg => hg⟩
  | cons data rest ih =>
    simp only [submitPhase] at h
    cases hu : UpdateRunningJobs s.running e with
    | none => simp only [hu] at h; exact Out.noConfusion h
    | some pu =>
      obtain ⟨⟨still, fin⟩, e1⟩ := pu
      simp only [hu] at h
      have hup := update_props s.running e still fin e1 hr hu
      cases hcw : capacityWait maxc pd fuel { s with running := still, done := s.done ++ fin } e1 with
      | hang => simp only [hcw] at h; exact Out.noConfusion h
      | exn err sx ex => simp only [hcw] at h; exact Out.noConfusion h
      | ok sc2 ec2 =>
        simp only [hcw] at h
        have hcap := capacityWait_ok maxc pd fuel
          { s with running := still, done := s.done ++ fin } e1 sc2 ec2 hcw
        cases hst : (QsubJob.make jn wd sc data).start fuel ec2 with
        | hang => simp only [hst] at h; exact Out.noConfusion h
        | exn err jx ex => simp only [hst] at h; exact Out.noConfusion h
        | ok j1 e3 =>
          simp only [hst] at h
          have hj1 := start_fresh_ok (QsubJob.make jn wd sc data) fuel ec2 j1 e3 rfl rfl hst
          obtain ⟨jid, hjid⟩ := Option.isSome_iff_exists.mp hj1.2.2
          simp only [hjid] at h
          have hr2 : ∀ j ∈ sc2.running ++ [j1], j.submitted = true := by
            intro x hx
            rcases List.mem_append.mp hx with hx | hx
            · rw [hcap.1] at hx
              exact hup.1 x hx
            · rw [List.mem_singleton.mp hx]
              exact hj1.1
          have hd2 : ∀ j ∈ sc2.done, j.submitted = true ∧ j.finished = true := by
            intro x hx
            rw [hcap.2.1] at hx
            rcases List.mem_append.mp hx with hx | hx
            · exact hd x hx
            · exact hup.2.1 x hx
          have hrec := ih { sc2 with running := sc2.running ++ [j1], rtrace := Ev.submit jid :: sc2.rtrace } e3 hr2 hd2 h
          refine ⟨hrec.1, hrec.2.1, ?_, ?_⟩
          · have hc1 := hrec.2.2.1
            have hlen := hup.2.2
            have hrun : sc2.running = still := hcap.1
            have hdone : sc2.done = s.done ++ fin := hcap.2.1
            rw [hrun, hdone] at hc1
            simp only [List.length_append, List.length_cons, List.length_nil] at hc1
            simp only [List.length_cons]
            omega
          · intro hg
            have hg1 : goodTraceR maxc sc2.rtrace = true := hcap.2.2.2 hg
            obtain ⟨n, tl, htr, hn⟩ := hcap.2.2.1
            have hg2 : goodTraceR maxc (Ev.submit jid :: sc2.rtrace) = true := by
              rw [htr]
              rw [htr] at hg1
              exact goodTraceR_cons_submit maxc n jid tl hn hg1
            exact hrec.2.2.2 hg2

/-- Helper lemma: the submission loop, run on at least one task, never
completes normally with an empty running list: the job submitted last is
still outstanding when the loop ends. -/
theorem submitPhase_cons_running_ne (jn : String) (wd : Option String) (sc : String)
    (maxc : Nat) (pd : Bool) (fuel : Nat) (data : List String)
    (rest : List (List String)) (s : PState) (e : Env) (s2 : PState) (e2 : Env)
    (h : submitPhase jn wd sc maxc pd fuel (data :: rest) s e = .ok s2 e2) :
    s2.running ≠ [] := by
  induction rest generalizing data s e with
  | nil =>
    simp only [submitPhase] at h
    cases hu : UpdateRunningJobs s.running e with
    | none => simp only [hu] at h; exact Out.noConfusion h
    | some pu =>
      obtain ⟨⟨still, fin⟩, e1⟩ := pu
      simp only [hu] at h
      cases hcw : capacityWait maxc pd fuel { s with running := still, done := s.done ++ fin } e1 with
      | hang => simp only [hcw] at h; exact Out.noConfusion h
      | exn err sx ex => simp only [hcw] at h; exact Out.noConfusion h
      | ok sc2 ec2 =>
        simp only [hcw] at h
        cases hst : (QsubJob.make jn wd sc data).start fuel ec2 with
        | hang => simp only [hst] at h; exact Out.noConfusion h
        | exn err jx ex => simp only [hst] at h; exact Out.noConfusion h
        | ok j1 e3 =>
          simp only [hst, submitPhase] at h
          cases h
          simp
  | cons d2 rest2 ih =>
    simp only [submitPhase] at h
    cases hu : UpdateRunningJobs s.running e with
    | none => simp only [hu] at h; exact Out.noConfusion h
    | some pu =>
      obtain ⟨⟨still, fin⟩, e1⟩ := pu
      simp only [hu] at h
      cases hcw : capacityWait maxc pd fuel { s with running := still, done := s.done ++ fin } e1 with
      | hang => simp only [hcw] at h; exact Out.noConfusion h
      | exn err sx ex => simp only [hcw] at h; exact Out.noConfusion h
      | ok sc2 ec2 =>
        simp only [hcw] at h
        cases hst : (QsubJob.make jn wd sc data).start fuel ec2 with
        | hang => simp only [hst] at h; exact Out.noConfusion h
        | exn err jx ex => simp only [hst] at h; exact Out.noConfusion h
        | ok j1 e3 =>
          simp only [hst] at h
          have hj1 := start_fresh_ok (QsubJob.make jn wd sc data) fuel ec2 j1 e3 rfl rfl hst
          obtain ⟨jid, hjid⟩ := Option.isSome_iff_exists.mp hj1.2.2
          simp only [hjid] at h
          exact ih d2 { sc2 with running := sc2.running ++ [j1], rtrace := Ev.submit jid :: sc2.rtrace } e3 h

/-- Helper lemma: with the poll-interval name unassigned the drain loop,
entered with a nonempty running list, never completes normally. -/
theorem finalWait_noPoll (fuel : Nat) (s : PState) (e : Env)
    (hne : s.running ≠ []) :
    (finalWait false fuel s e).toOk = none := by
  unfold finalWait
  rw [if_neg hne]
  cases fuel with
  | zero => rfl
  | succ fuel1 =>
    cases hu : UpdateRunningJobs s.running e with
    | none => simp only [hu]; rfl
    | some pu =>
      obtain ⟨⟨still, fin⟩, e1⟩ := pu
      simp only [hu]
      rfl

/-- C1: whenever `RunPipeline` returns normally, every task has given rise
to exactly one submitted Job and every one of those Jobs has been observed
to have left the scheduler queue: the outstanding list is empty and each
retired Job carries the submitted flag and the finished flag, the latter
set only by a fresh queue listing that no longer reported its identifier. -/
theorem RunPipeline_blocks_until_all_finished (script : String)
    (run_data : List (List String)) (wd : Option String) (maxc : Nat) (pd : Bool)
    (fuel : Nat) (e : Env) (s : PState)
    (h : (RunPipeline script run_data wd maxc pd fuel e).toOk = some s) :
    s.running = [] ∧ s.done.length = run_data.length ∧
    ∀ j ∈ s.done, j.submitted = true ∧ j.finished = true := by
  unfold RunPipeline at h
  cases hs : submitPhase (jobName script) wd script maxc pd fuel run_data
      { running := [], done := [], rtrace := [] } e with
  | hang => simp only [hs, Out.toOk] at h; exact Option.noConfusion h
  | exn err sx ex => simp only [hs, Out.toOk] at h; exact Option.noConfusion h
  | ok s1 e1 =>
    simp only [hs] at h
    cases hf : finalWait pd fuel s1 e1 with
    | hang => simp only [hf, Out.toOk] at h; exact Option.noConfusion h
    | exn err sx ex => simp only [hf, Out.toOk] at h; exact Option.noConfusion h
    | ok sf ef =>
      simp only [hf, Out.toOk, Option.some.injEq] at h
      cases h
      have hsp := submitPhase_ok (jobName script) wd script maxc pd fuel run_data
        { running := [], done := [], rtrace := [] } e s1 e1
        (fun j hj => absurd hj (List.not_mem_nil j))
        (fun j hj => absurd hj (List.not_mem_nil j)) hs
      have hfw := finalWait_ok maxc pd fuel s1 e1 _ _ hsp.1 hsp.2.1 hf
      refine ⟨hfw.1, ?_, hfw.2.1⟩
      have hc1 := hsp.2.2.1
      have hc2 := hfw.2.2.1
      have hr0 : s.running.length = 0 := by rw [hfw.1]; rfl
      simp only [List.length_nil] at hc1
      omega

/-- C2: on every normal completion of `RunPipeline` the recorded trace is
admissible: every job submission sits directly on top of a fresh capacity
poll (`qstat.njobs()`) whose count was strictly below the configured
ceiling, so a new Job is submitted only when the fresh queue count is below
`max_concurrent_jobs`. -/
theorem RunPipeline_submits_below_ceiling (script : String)
    (run_data : List (List String)) (wd : Option String) (maxc : Nat) (pd : Bool)
    (fuel : Nat) (e : Env) (s : PState)
    (h : (RunPipeline script run_data wd maxc pd fuel e).toOk = some s) :
    goodTraceR maxc s.rtrace = true := by
  unfold RunPipeline at h
  cases hs : submitPhase (jobName script) wd script maxc pd fuel run_data
      { running := [], done := [], rtrace := [] } e with
  | hang => simp only [hs, Out.toOk] at h; exact Option.noConfusion h
  | exn err sx ex => simp only [hs, Out.toOk] at h; exact Option.noConfusion h
  | ok s1 e1 =>
    simp only [hs] at h
    cases hf : finalWait pd fuel s1 e1 with
    | hang => simp only [hf, Out.toOk] at h; exact Option.noConfusion h
    | exn err sx ex => simp only [hf, Out.toOk] at h; exact Option.noConfusion h
    | ok sf ef =>
      simp only [hf, Out.toOk, Option.some.injEq] at h
      cases h
      have hsp := submitPhase_ok (jobName script) wd script maxc pd fuel run_data
        { running := [], done := [], rtrace := [] } e s1 e1
        (fun j hj => absurd hj (List.not_mem_nil j))
        (fun j hj => absurd hj (List.not_mem_nil j)) hs
      have hfw := finalWait_ok maxc pd fuel s1 e1 _ _ hsp.1 hsp.2.1 hf
      exact hfw.2.2.2 (hsp.2.2.2 rfl)

/-- C9: `poll_interval` is assigned only in the `__main__` block, so when
the module is imported (`pollDefined = false`): (1) on any nonempty batch,
`RunPipeline` never returns normally - the first sleep it reaches raises
`NameError` (or it fails or hangs earlier); (2) the capacity loop raises
`NameError` right after a full-queue poll instead of sleeping; (3) the
drain loop, entered with outstanding jobs, raises `NameError` right after
refreshing the running list instead of sleeping. -/
theorem RunPipeline_poll_interval_unset_nameError :
    (∀ (script : String) (run_data : List (List String)) (wd : Option String)
      (maxc fuel : Nat) (e : Env), run_data ≠ [] →
      (RunPipeline script run_data wd maxc false fuel e).toOk = none) ∧
    (∀ (maxc fuel : Nat) (s : PState) (e : Env) (n : Nat) (e1 : Env),
      Qstat.njobsE none e = some (n, e1) → maxc ≤ n →
      capacityWait maxc false (fuel + 1) s e =
        .exn .nameError { s with rtrace := Ev.pollCount n :: s.rtrace } e1) ∧
    (∀ (fuel : Nat) (s : PState) (e : Env) (still fin : List QsubJob) (e1 : Env),
      s.running ≠ [] → UpdateRunningJobs s.running e = some ((still, fin), e1) →
      finalWait false (fuel + 1) s e =
        .exn .nameError { s with running := still, done := s.done ++ fin } e1) := by
  refine ⟨?_, ?_, ?_⟩
  · intro script run_data wd maxc fuel e hne
    unfold RunPipeline
    cases hs : submitPhase (jobName script) wd script maxc false fuel run_data
        { running := [], done := [], rtrace := [] } e with
    | hang => simp only [Out.toOk]
    | exn err sx ex => simp only [Out.toOk]
    | ok s1 e1 =>
      obtain ⟨data, rest, hsplit⟩ : ∃ d r, run_data = d :: r := by
        cases run_data with
        | nil => exact absurd rfl hne
        | cons d r => exact ⟨d, r, rfl⟩
      subst hsplit
      have hne1 : s1.running ≠ [] :=
        submitPhase_cons_running_ne (jobName script) wd script maxc false fuel data rest
          { running := [], done := [], rtrace := [] } e s1 e1 hs
      exact finalWait_noPoll fuel s1 e1 hne1
  · intro maxc fuel s e n e1 hn hge
    simp only [capacityWait, hn, if_pos hge]
  · intro fuel s e still fin e1 hne hu
    unfold finalWait
    rw [if_neg hne]
    simp only [hu]

/-- Witness for the C1 theorem on a concrete two-task run. -/
theorem RunPipeline_blocks_until_all_finished_witness :
    pipelineFinal.running = [] ∧ pipelineFinal.done.length = 2 ∧
    ∀ j ∈ pipelineFinal.done, j.submitted = true ∧ j.finished = true :=
  RunPipeline_blocks_until_all_finished ("qc.sh") [[("a")], [("b")]] none 4 true 8
    envPipeline pipelineFinal (by rfl)

/-- Witness for the C2 theorem on the same concrete two-task run. -/
theorem RunPipeline_submits_below_ceiling_witness :
    goodTraceR 4 pipelineFinal.rtrace = true :=
  RunPipeline_submits_below_ceiling ("qc.sh") [[("a")], [("b")]] none 4 true 8
    envPipeline pipelineFinal (by rfl)

/-- Witness for the C9 theorem at concrete inputs for all three parts. -/
theorem RunPipeline_poll_interval_unset_nameError_witness :
    (RunPipeline ("qc.sh") [[("a")]] none 4 false 8 envPipeline).toOk = none ∧
    capacityWait 1 false 1 pEmpty envBusy =
      .exn .nameError { pEmpty with rtrace := Ev.pollCount 1 :: pEmpty.rtrace }
        { envBusy with qstat := [] } ∧
    finalWait false 1 pRunning envEmpty =
      .exn .nameError { pRunning with running := [], done := pRunning.done ++ [jobDone101] }
        envEmpty :=
  ⟨RunPipeline_poll_interval_unset_nameError.1 ("qc.sh") [[("a")]] none 4 8 envPipeline
      (by simp),
   RunPipeline_poll_interval_unset_nameError.2.1 1 0 pEmpty envBusy 1
      { envBusy with qstat := [] } rfl (Nat.le_refl 1),
   RunPipeline_poll_interval_unset_nameError.2.2 0 pRunning envEmpty [] [jobDone101]
      envEmpty (by simp [pRunning]) rfl⟩

end RunQcPipeline
